import Mathlib

/-!
Verification development for the RepoAnalyser repository-content collector
(`fetchAllFilesRecursive`, `fetchRepoData`, `parseGithubUrl` and the
classification helpers in the GitHub service module).

The TypeScript source is shallowly embedded: every constant, filter and
classifier below mirrors the corresponding declaration of the source file.
JavaScript regular expressions used by the source are all of the shape
"anchored prefix", "anchored suffix" or "full anchored alternation" on the
(case-insensitively matched) path, so they are embedded as `startsWith` /
`endsWith` / equality tests on the lowercased path.  The remote GitHub
contents API is embedded as an explicit tree of directory listings
(`Entry`); a file entry carries `Option String`: `some content` models a
successful content fetch and base64 decode, `none` models a fetch or decode
failure.  A directory entry carries a Boolean recording whether its listing
request succeeds (`false` models a non-ok / non-array listing response,
which the source turns into an empty result).
-/

namespace RepoAnalyser

/-- Maximum file size to read (1MB): `MAX_FILE_SIZE = 1024 * 1024`. -/
def MAX_FILE_SIZE : Nat := 1024 * 1024

/-- Maximum total code size to analyze (10MB): `MAX_TOTAL_CODE_SIZE = 10 * 1024 * 1024`. -/
def MAX_TOTAL_CODE_SIZE : Nat := 10 * 1024 * 1024

/-- Maximum number of files to analyze: `MAX_FILES_TO_ANALYZE = 500`. -/
def MAX_FILES_TO_ANALYZE : Nat := 500

/-- The `SKIP_EXTENSIONS` set of the source (binaries, generated files, etc.). -/
def SKIP_EXTENSIONS : List String :=
  [".png", ".jpg", ".jpeg", ".gif", ".svg", ".ico", ".webp", ".bmp",
   ".pdf", ".zip", ".tar", ".gz", ".rar", ".7z",
   ".exe", ".dll", ".so", ".dylib", ".bin",
   ".woff", ".woff2", ".ttf", ".eot",
   ".mp4", ".mp3", ".avi", ".mov", ".wmv",
   ".pyc", ".pyo", ".class", ".jar", ".war",
   ".min.js", ".min.css", ".bundle.js",
   ".lock", ".log", ".cache"]

/-- The `SKIP_DIRECTORIES` set of the source (`.idea` is listed twice there). -/
def SKIP_DIRECTORIES : List String :=
  ["node_modules", ".git", "dist", "build", ".next", "out",
   "coverage", ".nyc_output", ".cache", ".vscode", ".idea",
   "vendor", "__pycache__", ".pytest_cache", ".mypy_cache",
   "target", ".gradle", ".idea", "venv", "env", ".venv",
   "bower_components", ".sass-cache", ".parcel-cache"]

/-- Words of the first `HIGH_PRIORITY_PATTERNS` regex, an anchored
case-insensitive alternation of directory-name starts of the path. -/
def HIGH_PRIORITY_STARTS : List String :=
  ["src", "lib", "app", "components", "pages", "routes",
   "controllers", "services", "models", "utils", "helpers"]

/-- Suffixes of the second `HIGH_PRIORITY_PATTERNS` regex (recognized
programming-language source extensions, matched at the end of the path). -/
def HIGH_PRIORITY_EXTS : List String :=
  [".ts", ".tsx", ".js", ".jsx", ".py", ".java", ".go", ".rs", ".rb",
   ".php", ".cs", ".cpp", ".c", ".h", ".swift", ".kt", ".scala"]

/-- Alternatives of the third `HIGH_PRIORITY_PATTERNS` regex, which is
anchored at both ends: exact (case-insensitive) whole-path matches. -/
def HIGH_PRIORITY_MANIFESTS : List String :=
  ["package.json", "requirements.txt", "pom.xml", "build.gradle",
   "cargo.toml", "go.mod", "gemfile", "composer.json"]

/-- Alternatives of the fourth `HIGH_PRIORITY_PATTERNS` regex, also anchored
at both ends: exact (case-insensitive) whole-path matches. -/
def HIGH_PRIORITY_INFRA : List String :=
  ["dockerfile", "docker-compose", ".env.example", ".gitignore",
   ".eslintrc", ".prettierrc"]

/-- Starts of the first `CONFIG_PATTERNS` regex (anchored at the start only). -/
def CONFIG_STARTS : List String :=
  ["package.json", "tsconfig", "webpack", "vite", "rollup", "babel",
   "eslint", "prettier", "jest", "vitest", "cypress", "playwright"]

/-- Suffixes of the second `CONFIG_PATTERNS` regex. -/
def CONFIG_EXTS : List String :=
  [".config", ".conf", ".ini", ".yaml", ".yml", ".toml", ".json"]

/-- Alternatives of the third `CONFIG_PATTERNS` regex, anchored at both ends. -/
def CONFIG_NAMES : List String :=
  ["dockerfile", "docker-compose", ".env", ".gitignore", ".npmrc", ".nvmrc"]

/-- The extension alternation shared by the first two `TEST_PATTERNS` regexes. -/
def TEST_EXTS : List String :=
  ["js", "ts", "jsx", "tsx", "py", "java", "go", "rb"]

/-- Starts of the third `TEST_PATTERNS` regex. -/
def TEST_STARTS : List String :=
  ["test", "spec", "tests", "__tests__", "__spec__"]

/-- Starts of the first `DOC_PATTERNS` regex. -/
def DOC_STARTS : List String :=
  ["readme", "changelog", "contributing", "license", "authors", "credits"]

/-- Suffixes of the second `DOC_PATTERNS` regex. -/
def DOC_EXTS : List String :=
  [".md", ".txt", ".rst", ".adoc"]

/-! The embedding implements the JavaScript string primitives the source
uses (`toLowerCase`, `startsWith`, `endsWith`, `includes`, `split`)
characterwise over `String.data`, so that every model function is
evaluable by the kernel on concrete inputs.  The repository only handles
ASCII paths, for which `Char.toLower` agrees with `toLowerCase`. -/

/-- JavaScript `s.toLowerCase()`. -/
def lowerS (s : String) : String :=
  String.mk (s.data.map Char.toLower)

/-- JavaScript `s.startsWith(pat)`. -/
def startsWithS (s pat : String) : Bool :=
  pat.data.isPrefixOf s.data

/-- JavaScript `s.endsWith(pat)`. -/
def endsWithS (s pat : String) : Bool :=
  pat.data.reverse.isPrefixOf s.data.reverse

/-- Occurrence of a nonempty pattern somewhere in a character list. -/
def containsL (pat : List Char) : List Char → Bool
  | [] => false
  | c :: rest => pat.isPrefixOf (c :: rest) || containsL pat rest

/-- JavaScript `s.includes(pat)`, for the nonempty literal patterns the
source tests. -/
def strContains (s pat : String) : Bool :=
  containsL pat.data s.data

/-- JavaScript `s.split(sep)` for a one-character separator, on the
underlying character list. -/
def splitCharL (sep : Char) : List Char → List (List Char)
  | [] => [[]]
  | c :: rest =>
    if c = sep then [] :: splitCharL sep rest
    else
      match splitCharL sep rest with
      | [] => [[c]]
      | chunk :: chunks => (c :: chunk) :: chunks

/-- JavaScript `s.split('/')`. -/
def splitSlash (s : String) : List String :=
  (splitCharL '/' s.data).map String.mk

/-- The expression `path.substring(path.lastIndexOf('.'))` of the source:
the suffix of the path from its last dot on; when the path has no dot,
`lastIndexOf` yields `-1` and JavaScript `substring` clamps it to `0`,
returning the whole path. -/
def extOf (path : String) : String :=
  if path.toList.contains '.' then
    String.mk ('.' :: ((path.toList.reverse.takeWhile (fun c => c ≠ '.')).reverse))
  else path

/-- The second test of `shouldSkipFile`: some `/`-separated segment of the
lowercased path is in the directory skip-list
(`path.toLowerCase().split('/')` tested against `SKIP_DIRECTORIES`). -/
def hasSkipSegment (path : String) : Bool :=
  (splitSlash (lowerS path)).any (fun part => SKIP_DIRECTORIES.contains part)

/-- `shouldSkipFile` of the source: per-file admission filter, evaluated on
the declared path and size before any content fetch.  The source's
early-return chain of pure tests is embedded as a Boolean disjunction. -/
def shouldSkipFile (path : String) (size : Nat) : Bool :=
  (decide (MAX_FILE_SIZE < size))
  || hasSkipSegment path
  || (SKIP_EXTENSIONS.contains (lowerS (extOf path)))
  || (strContains path (".min.") || strContains path (".bundle.")
      || strContains path (".chunk."))

/-- The priority tier of a collected file. -/
inductive Priority where
  | high
  | medium
  | low
deriving DecidableEq, Repr

/-- `getFilePriority` of the source: first matching tier wins. -/
def getFilePriority (path : String) : Priority :=
  let p := lowerS path
  if HIGH_PRIORITY_STARTS.any (fun w => startsWithS p w)
     || HIGH_PRIORITY_EXTS.any (fun w => endsWithS p w)
     || HIGH_PRIORITY_MANIFESTS.contains p
     || HIGH_PRIORITY_INFRA.contains p then
    Priority.high
  else if (CONFIG_STARTS.any (fun w => startsWithS p w)
           || CONFIG_EXTS.any (fun w => endsWithS p w)
           || CONFIG_NAMES.contains p)
          || (DOC_STARTS.any (fun w => startsWithS p w)
              || DOC_EXTS.any (fun w => endsWithS p w)) then
    Priority.medium
  else
    Priority.low

/-- `isTestFile` of the source. -/
def isTestFile (path : String) : Bool :=
  let p := lowerS path
  (["test", "spec"].any (fun w => TEST_EXTS.any (fun e => endsWithS p (w ++ "." ++ e))))
  || (["test", "spec"].any (fun w => TEST_EXTS.any (fun e => endsWithS p ("." ++ w ++ "." ++ e))))
  || TEST_STARTS.any (fun w => startsWithS p w)

/-- `isConfigFile` of the source. -/
def isConfigFile (path : String) : Bool :=
  let p := lowerS path
  CONFIG_STARTS.any (fun w => startsWithS p w)
  || CONFIG_EXTS.any (fun w => endsWithS p w)
  || CONFIG_NAMES.contains p

/-- `isDocumentationFile` of the source. -/
def isDocumentationFile (path : String) : Bool :=
  let p := lowerS path
  DOC_STARTS.any (fun w => startsWithS p w)
  || DOC_EXTS.any (fun w => endsWithS p w)

/-- The extension-to-language map of `detectLanguage`. -/
def LANG_MAP : List (String × String) :=
  [(".ts", "TypeScript"), (".tsx", "TypeScript"), (".js", "JavaScript"),
   (".jsx", "JavaScript"), (".py", "Python"), (".java", "Java"),
   (".go", "Go"), (".rs", "Rust"), (".rb", "Ruby"), (".php", "PHP"),
   (".cs", "C#"), (".cpp", "C++"), (".c", "C"), (".swift", "Swift"),
   (".kt", "Kotlin"), (".scala", "Scala"), (".html", "HTML"),
   (".css", "CSS"), (".scss", "SCSS"), (".sass", "SASS"),
   (".json", "JSON"), (".yaml", "YAML"), (".yml", "YAML"),
   (".xml", "XML"), (".md", "Markdown"), (".sh", "Shell"), (".sql", "SQL")]

/-- `detectLanguage` of the source: object lookup on the lowercased last-dot
suffix; a missing key yields `undefined`, embedded as `none`. -/
def detectLanguage (path : String) : Option String :=
  LANG_MAP.lookup (lowerS (extOf path))

/-- `CodeFile` of the source (`content` holds the base64-decoded text). -/
structure CodeFile where
  path : String
  content : String
  size : Nat
  language : Option String
  isTest : Bool
  isConfig : Bool
  isDocumentation : Bool
  priority : Priority
deriving DecidableEq, Repr

/-- One entry of a GitHub contents-API directory listing, with the remote
tree embedded in place of the network.  A `file` carries the declared
`path` and `size` of the listing plus the outcome of a content fetch:
`some content` for a successful fetch and decode, `none` for any fetch or
decode failure (non-ok response, missing `content` field, or a decode
exception — the source treats all three alike).  A `dir` carries its
`name` (used for the skip-list test), the outcome of listing it
(`listOk = false` models a non-ok or non-array listing response, which
the source turns into an empty result) and the listed entries. -/
inductive Entry where
  | file (path : String) (size : Nat) (fetch : Option String) : Entry
  | dir (name : String) (listOk : Bool) (entries : List Entry) : Entry

/-- The `files.push({...})` record of `fetchAllFilesRecursive`. -/
def mkCodeFile (path : String) (content : String) (size : Nat) : CodeFile :=
  { path := path
    content := content
    size := size
    language := detectLanguage path
    isTest := isTestFile path
    isConfig := isConfigFile path
    isDocumentation := isDocumentationFile path
    priority := getFilePriority path }

/-- The loop body of `fetchAllFilesRecursive` over one directory listing.
`files` and `totalSize` are the two local accumulators of one invocation
(each recursive call of the source starts from `[]` and `0` again).  The
first component of the result is the `files` array returned by the
invocation; the second records, in order, the paths for which a content
fetch request was issued (successful or not).  Faithful details:
a skip-listed or failing directory contributes nothing; after absorbing a
subdirectory's result the source recomputes `totalSize` by summing the
accumulated sizes and breaks out of the loop once either ceiling is
reached; a file is skipped before any other check when `shouldSkipFile`
holds, breaks the loop when the count ceiling is reached, and is skipped
(fetch not issued) when its declared size overflows the aggregate budget;
a failed fetch leaves both accumulators unchanged. -/
def walkListing : List Entry → List CodeFile → Nat → List CodeFile × List String
  | [], files, _ => (files, [])
  | Entry.dir name listOk sub :: rest, files, totalSize =>
    if SKIP_DIRECTORIES.contains (lowerS name) then
      walkListing rest files totalSize
    else
      let subResult := if listOk then walkListing sub [] 0 else ([], [])
      let files1 := files ++ subResult.1
      let totalSize1 := files1.foldl (fun sum f => sum + f.size) 0
      if MAX_FILES_TO_ANALYZE ≤ files1.length ∨ MAX_TOTAL_CODE_SIZE ≤ totalSize1 then
        (files1, subResult.2)
      else
        ((walkListing rest files1 totalSize1).1,
         subResult.2 ++ (walkListing rest files1 totalSize1).2)
  | Entry.file path size fetch :: rest, files, totalSize =>
    if shouldSkipFile path size then
      walkListing rest files totalSize
    else if MAX_FILES_TO_ANALYZE ≤ files.length then
      (files, [])
    else if MAX_TOTAL_CODE_SIZE < totalSize + size then
      walkListing rest files totalSize
    else
      match fetch with
      | none =>
        ((walkListing rest files totalSize).1,
         path :: (walkListing rest files totalSize).2)
      | some content =>
        ((walkListing rest (files ++ [mkCodeFile path content size]) (totalSize + size)).1,
         path :: (walkListing rest (files ++ [mkCodeFile path content size]) (totalSize + size)).2)
termination_by l _ _ => sizeOf l

/-- Fuel-indexed twin of `walkListing`, identical step for step but
recursing structurally on the fuel so that the kernel can evaluate it on
concrete inputs (`walkListing` itself uses well-founded recursion, which
does not reduce definitionally).  Fuel at least `sizeOf` of the listing
is never exhausted; `walkListing_eq_walkFuel` below makes the two
definitions interchangeable. -/
def walkFuel : Nat → List Entry → List CodeFile → Nat → List CodeFile × List String
  | 0, _, files, _ => (files, [])
  | _ + 1, [], files, _ => (files, [])
  | fuel + 1, Entry.dir name listOk sub :: rest, files, totalSize =>
    if SKIP_DIRECTORIES.contains (lowerS name) then
      walkFuel fuel rest files totalSize
    else
      let subResult := if listOk then walkFuel fuel sub [] 0 else ([], [])
      let files1 := files ++ subResult.1
      let totalSize1 := files1.foldl (fun sum f => sum + f.size) 0
      if MAX_FILES_TO_ANALYZE ≤ files1.length ∨ MAX_TOTAL_CODE_SIZE ≤ totalSize1 then
        (files1, subResult.2)
      else
        ((walkFuel fuel rest files1 totalSize1).1,
         subResult.2 ++ (walkFuel fuel rest files1 totalSize1).2)
  | fuel + 1, Entry.file path size fetch :: rest, files, totalSize =>
    if shouldSkipFile path size then
      walkFuel fuel rest files totalSize
    else if MAX_FILES_TO_ANALYZE ≤ files.length then
      (files, [])
    else if MAX_TOTAL_CODE_SIZE < totalSize + size then
      walkFuel fuel rest files totalSize
    else
      match fetch with
      | none =>
        ((walkFuel fuel rest files totalSize).1,
         path :: (walkFuel fuel rest files totalSize).2)
      | some content =>
        ((walkFuel fuel rest (files ++ [mkCodeFile path content size]) (totalSize + size)).1,
         path :: (walkFuel fuel rest (files ++ [mkCodeFile path content size]) (totalSize + size)).2)

/-- `fetchAllFilesRecursive` of the source, applied to one directory
listing (the root listing for the top-level call): the `files` array the
invocation returns. -/
def fetchAllFilesRecursive (listing : List Entry) : List CodeFile :=
  (walkListing listing [] 0).1

/-- The ordered trace of content-fetch requests issued while walking a
listing (one request per admitted file, issued whether or not it fails). -/
def fetchTrace (listing : List Entry) : List String :=
  (walkListing listing [] 0).2

/-- All `(path, size)` pairs of file entries anywhere in a forest of
listings (whether or not the walk reaches them). -/
def forestFiles : List Entry → List (String × Nat)
  | [] => []
  | Entry.dir _ _ sub :: rest => forestFiles sub ++ forestFiles rest
  | Entry.file p s _ :: rest => (p, s) :: forestFiles rest
termination_by l => sizeOf l

/-- Fuel-indexed twin of `forestFiles` (see `walkFuel` for why). -/
def forestFilesFuel : Nat → List Entry → List (String × Nat)
  | 0, _ => []
  | _ + 1, [] => []
  | fuel + 1, Entry.dir _ _ sub :: rest =>
    forestFilesFuel fuel sub ++ forestFilesFuel fuel rest
  | fuel + 1, Entry.file p s _ :: rest => (p, s) :: forestFilesFuel fuel rest

/-- The `priorityOrder` mapping of the sort comparator in `fetchRepoData`:
`{ high: 0, medium: 1, low: 2 }`. -/
def priorityOrder : Priority → Nat
  | Priority.high => 0
  | Priority.medium => 1
  | Priority.low => 2

/-- The comparator `priorityOrder[a.priority] - priorityOrder[b.priority]`
of `allCodeFiles.sort`, as the total preorder it induces. -/
def priorityLe (a b : CodeFile) : Prop :=
  priorityOrder a.priority ≤ priorityOrder b.priority

instance : DecidableRel priorityLe := fun a b =>
  inferInstanceAs (Decidable (priorityOrder a.priority ≤ priorityOrder b.priority))

/-- The code-file portion of the `RepoMetadata` record that `fetchRepoData`
returns. -/
structure CollectOutput where
  codeFiles : List CodeFile
  totalCodeSize : Nat
  filesAnalyzed : Nat
  filesSkipped : Nat
deriving DecidableEq, Repr

/-- Steps 5 of `fetchRepoData`: walk the tree from the root listing, sort
the collected files by priority (JavaScript `Array.prototype.sort` is
required to be stable, embedded as Mathlib's stable `insertionSort`),
truncate to `MAX_FILES_TO_ANALYZE`, and derive the aggregates exactly as
the source does (`totalCodeSize` summed over the truncated list,
`filesSkipped = allCodeFiles.length - codeFiles.length`). -/
def fetchRepoDataFiles (rootListing : List Entry) : CollectOutput :=
  let allCodeFiles := fetchAllFilesRecursive rootListing
  let sortedFiles := allCodeFiles.insertionSort priorityLe
  let codeFiles := sortedFiles.take MAX_FILES_TO_ANALYZE
  { codeFiles := codeFiles
    totalCodeSize := codeFiles.foldl (fun sum f => sum + f.size) 0
    filesAnalyzed := codeFiles.length
    filesSkipped := allCodeFiles.length - codeFiles.length }

/-- The two properties of the platform `URL` object that `parseGithubUrl`
reads. -/
structure UrlObj where
  hostname : String
  pathname : String
deriving DecidableEq, Repr

/-- Model of the platform `new URL(s)` constructor on the fragment the
repository exercises: absolute `http`/`https` URLs without user
information, port, query or fragment.  The constructor throws on a string
without a scheme or with an empty host (embedded as `none`), lowercases
the hostname, and reports `"/"` as the pathname of a URL without a path. -/
def urlParse (s : String) : Option UrlObj :=
  let rest :=
    if startsWithS s "https://" then some (s.data.drop 8)
    else if startsWithS s "http://" then some (s.data.drop 7)
    else none
  match rest with
  | none => none
  | some r =>
    let host := r.takeWhile (fun c => c ≠ '/')
    let path := r.drop host.length
    if host.isEmpty then none
    else some { hostname := lowerS (String.mk host)
                pathname := if path.isEmpty then "/" else String.mk path }

/-- `parseGithubUrl` of the source: `null` unless the URL parses, its
hostname is exactly `github.com`, and its pathname has at least two
nonempty `/`-separated segments (`parts = pathname.split('/').filter(Boolean)`);
otherwise the pair `(parts[0], parts[1])`.  The source's `parts.length < 2`
test and indexing are embedded as one match on the filtered segment
list.  The function issues no network request: it is a pure function of
its input string (the embedding has no effect context at all). -/
def parseGithubUrl (url : String) : Option (String × String) :=
  match urlParse url with
  | none => none
  | some u =>
    if u.hostname ≠ "github.com" then none
    else
      match (splitSlash u.pathname).filter (fun p => p ≠ "") with
      | owner :: repo :: _ => some (owner, repo)
      | _ => none

/-- The inputs `fetchRepoData` acquires over the network, embedded as one
record so that the function becomes pure.  `metaOk`/`metaStatus`/
`metaStatusText` describe the response of the top-level repository
metadata request (step 1 of the source).  Each remaining field is the
outcome of one best-effort acquisition the source wraps in its own
`try`/`catch`: `none` models a failed or non-ok request (or a failed
decode, for the README), for which the source falls back to a default. -/
structure RepoFetchInputs where
  metaOk : Bool
  metaStatus : Nat
  metaStatusText : String
  defaultBranch : Option String
  readmeResult : Option String
  languagesResult : Option (List (String × Nat))
  rootListing : List Entry
  commitShas : Option (List String)
  branchNames : Option (List String)
  pullNumbers : Option (List Nat)

/-- The portion of the source's `RepoMetadata` result that the collector
claims concern, plus the defaults chosen for the best-effort fields. -/
structure RepoMetadata where
  readmeContent : Option String
  languages : List (String × Nat)
  defaultBranch : String
  commitShas : List String
  branchNames : List String
  pullNumbers : List Nat
  codeFiles : List CodeFile
  totalCodeSize : Nat
  filesAnalyzed : Nat
  filesSkipped : Nat
deriving DecidableEq, Repr

/-- `fetchRepoData` of the source.  A non-ok metadata response throws — a
404 as "Repository not found (or private).", a 403 as the rate-limit
message, anything else as a generic GitHub API error — and this is the
only throw that can escape (every other acquisition failure is caught and
replaced by a default).  On an ok metadata response the collector result
is assembled from `fetchRepoDataFiles`. -/
def fetchRepoData (inp : RepoFetchInputs) : Except String RepoMetadata :=
  if !inp.metaOk then
    if inp.metaStatus = 404 then
      Except.error "Repository not found (or private)."
    else if inp.metaStatus = 403 then
      Except.error "GitHub API rate limit exceeded. Please try again later."
    else
      Except.error ("GitHub API Error: " ++ inp.metaStatusText)
  else
    let out := fetchRepoDataFiles inp.rootListing
    Except.ok
      { readmeContent := inp.readmeResult
        languages := inp.languagesResult.getD []
        defaultBranch := inp.defaultBranch.getD "main"
        commitShas := inp.commitShas.getD []
        branchNames := inp.branchNames.getD []
        pullNumbers := inp.pullNumbers.getD []
        codeFiles := out.codeFiles
        totalCodeSize := out.totalCodeSize
        filesAnalyzed := out.filesAnalyzed
        filesSkipped := out.filesSkipped }

/-- Fuel-indexed twin of `fetchRepoDataFiles` (see `walkFuel`):
interchangeable with it for any fuel at least `sizeOf` of the listing
(`fetchRepoDataFiles_eq_fuel` below). -/
def fetchRepoDataFilesFuel (fuel : Nat) (rootListing : List Entry) : CollectOutput :=
  let allCodeFiles := (walkFuel fuel rootListing [] 0).1
  let sortedFiles := allCodeFiles.insertionSort priorityLe
  let codeFiles := sortedFiles.take MAX_FILES_TO_ANALYZE
  { codeFiles := codeFiles
    totalCodeSize := codeFiles.foldl (fun sum f => sum + f.size) 0
    filesAnalyzed := codeFiles.length
    filesSkipped := allCodeFiles.length - codeFiles.length }

/-! Concrete repository trees used to settle the end-to-end scenarios. -/

/-- Scenario A of the spec: `src/app.ts` (2 KB), `README.md` (1 KB) and
`dist/bundle.min.js` (500 KB), laid out as the repository tree a GitHub
walk would see. -/
def scenarioATree : List Entry :=
  [Entry.dir "src" true [Entry.file "src/app.ts" 2048 (some "app code")],
   Entry.file "README.md" 1024 (some "readme text"),
   Entry.dir "dist" true [Entry.file "dist/bundle.min.js" 512000 (some "bundle")]]

/-- A directory of nine eligible 1 MiB source files. -/
def nineMiBDir (d : String) : Entry :=
  Entry.dir d true ((List.range 9).map (fun i =>
    Entry.file (d ++ "/f" ++ toString i ++ ".ts") 1048576 (some "")))

/-- Two sibling directories of nine 1 MiB files each: every file passes the
per-file filter, each subtree stays below the aggregate ceiling on its
own, and together they exceed it. -/
def twoNineMiBDirs : List Entry := [nineMiBDir "a", nineMiBDir "b"]

/-- An entry that is an eligible 1 KB file: a file of declared size 1024
whose content fetch succeeds and which passes the admission filter. -/
def eligible1k : Entry → Bool
  | Entry.file p s (some _) => s == 1024 && !(shouldSkipFile p s)
  | _ => false

/-- A flat root listing of 600 eligible 1 KB files. -/
def flatRepo600 : List Entry :=
  (List.range 600).map (fun i => Entry.file ("f" ++ toString i) 1024 (some ""))

/-- 600 eligible 1 KB files split into two sibling directories of 300. -/
def splitRepo600 : List Entry :=
  [Entry.dir "a" true ((List.range 300).map (fun i =>
     Entry.file ("a/f" ++ toString i) 1024 (some ""))),
   Entry.dir "b" true ((List.range 300).map (fun i =>
     Entry.file ("b/f" ++ toString i) 1024 (some "")))]

/-- A listing in which the same path is admitted twice. -/
def dupPathTree : List Entry :=
  [Entry.file "a.ts" 10 (some "x"), Entry.file "a.ts" 10 (some "y")]

/-- A listing holding a skip-listed path next to an eligible file. -/
def skipSegTree : List Entry :=
  [Entry.file "node_modules/a.ts" 10 (some "x"), Entry.file "ok.ts" 10 (some "y")]

/-- A listing holding a file one byte above the per-file ceiling next to an
eligible file. -/
def oneOverTree : List Entry :=
  [Entry.file "big.ts" 1048577 (some "payload"), Entry.file "ok.ts" 10 (some "y")]

/-- A listing starting with a file whose content fetch fails. -/
def failFetchTree : List Entry :=
  [Entry.file "gone.ts" 10 none, Entry.file "ok.ts" 20 (some "y")]

/-! Theorems.  First the bridges between the faithful well-founded
definitions and their fuel-indexed kernel-computable twins. -/

theorem walkListing_eq_walkFuel_of_le :
    ∀ (fuel : Nat) (l : List Entry) (files : List CodeFile) (totalSize : Nat),
      sizeOf l ≤ fuel →
      walkListing l files totalSize = walkFuel fuel l files totalSize := by
  intro fuel
  induction fuel with
  | zero =>
    intro l files t h
    exfalso
    cases l <;> simp at h
  | succ fuel ih =>
    intro l files t h
    match l with
    | [] => simp [walkListing, walkFuel]
    | Entry.dir name listOk sub :: rest =>
      have hsub : sizeOf sub ≤ fuel := by simp at h; omega
      have hrest : sizeOf rest ≤ fuel := by simp at h; omega
      have e1 : ∀ f t, walkListing sub f t = walkFuel fuel sub f t :=
        fun f t => ih sub f t hsub
      have e2 : ∀ f t, walkListing rest f t = walkFuel fuel rest f t :=
        fun f t => ih rest f t hrest
      simp only [walkListing, walkFuel, e1, e2]
    | Entry.file path size fetch :: rest =>
      have hrest : sizeOf rest ≤ fuel := by simp at h; omega
      have e2 : ∀ f t, walkListing rest f t = walkFuel fuel rest f t :=
        fun f t => ih rest f t hrest
      cases fetch <;> simp only [walkListing, walkFuel, e2]

theorem walkListing_eq_walkFuel (l : List Entry) (files : List CodeFile) (totalSize : Nat) :
    walkListing l files totalSize = walkFuel (sizeOf l) l files totalSize :=
  walkListing_eq_walkFuel_of_le (sizeOf l) l files totalSize (Nat.le_refl _)

theorem forestFiles_eq_fuel_of_le :
    ∀ (fuel : Nat) (l : List Entry), sizeOf l ≤ fuel →
      forestFiles l = forestFilesFuel fuel l := by
  intro fuel
  induction fuel with
  | zero =>
    intro l h
    exfalso
    cases l <;> simp at h
  | succ fuel ih =>
    intro l h
    match l with
    | [] => simp [forestFiles, forestFilesFuel]
    | Entry.dir name listOk sub :: rest =>
      have hsub : sizeOf sub ≤ fuel := by simp at h; omega
      have hrest : sizeOf rest ≤ fuel := by simp at h; omega
      simp only [forestFiles, forestFilesFuel, ih sub hsub, ih rest hrest]
    | Entry.file path size fetch :: rest =>
      have hrest : sizeOf rest ≤ fuel := by simp at h; omega
      simp only [forestFiles, forestFilesFuel, ih rest hrest]

theorem forestFiles_eq_fuel (l : List Entry) :
    forestFiles l = forestFilesFuel (sizeOf l) l :=
  forestFiles_eq_fuel_of_le (sizeOf l) l (Nat.le_refl _)

theorem fetchRepoDataFiles_eq_fuel (l : List Entry) :
    fetchRepoDataFiles l = fetchRepoDataFilesFuel (sizeOf l) l := by
  simp only [fetchRepoDataFiles, fetchRepoDataFilesFuel, fetchAllFilesRecursive,
    walkListing_eq_walkFuel]

theorem fetchTrace_eq_fuel (l : List Entry) :
    fetchTrace l = (walkFuel (sizeOf l) l [] 0).2 := by
  simp only [fetchTrace, walkListing_eq_walkFuel]

/-! Invariants of the walk. -/

theorem shouldSkipFile_false_no_seg {p : String} {s : Nat}
    (h : shouldSkipFile p s = false) : hasSkipSegment p = false := by
  simp only [shouldSkipFile, Bool.or_eq_false_iff] at h
  exact h.1.1.2

theorem shouldSkipFile_false_size_le {p : String} {s : Nat}
    (h : shouldSkipFile p s = false) : s ≤ MAX_FILE_SIZE := by
  simp only [shouldSkipFile, Bool.or_eq_false_iff, decide_eq_false_iff_not] at h
  exact Nat.le_of_not_lt h.1.1.1

theorem shouldSkipFile_of_size_gt {p : String} {s : Nat}
    (h : MAX_FILE_SIZE < s) : shouldSkipFile p s = true := by
  simp only [shouldSkipFile, Bool.or_eq_true, decide_eq_true_eq]
  exact Or.inl (Or.inl (Or.inl h))

/-- Every file the walk returns was pushed after passing the admission
filter, so its path has no skip-listed segment. -/
theorem walkFuel_no_skip_seg :
    ∀ (fuel : Nat) (l : List Entry) (files : List CodeFile) (t : Nat),
      (∀ f ∈ files, hasSkipSegment f.path = false) →
      ∀ f ∈ (walkFuel fuel l files t).1, hasSkipSegment f.path = false := by
  intro fuel
  induction fuel with
  | zero => intro l files t h; simpa [walkFuel] using h
  | succ fuel ih =>
    intro l files t h
    match l with
    | [] => simpa [walkFuel] using h
    | Entry.dir name listOk sub :: rest =>
      simp only [walkFuel]
      by_cases hskip : SKIP_DIRECTORIES.contains (lowerS name) = true
      · rw [if_pos hskip]
        exact ih rest files t h
      · rw [if_neg hskip]
        have h1 : ∀ f ∈ files ++ (if listOk then walkFuel fuel sub [] 0 else ([], [])).1,
            hasSkipSegment f.path = false := by
          intro f hf
          rcases List.mem_append.mp hf with hf1 | hf2
          · exact h f hf1
          · cases listOk with
            | false => simp at hf2
            | true =>
              simp only [if_true] at hf2
              exact ih sub [] 0 (by intro g hg; simp at hg) f hf2
        by_cases hstop : MAX_FILES_TO_ANALYZE ≤
              (files ++ (if listOk then walkFuel fuel sub [] 0 else ([], [])).1).length ∨
            MAX_TOTAL_CODE_SIZE ≤
              (files ++ (if listOk then walkFuel fuel sub [] 0 else ([], [])).1).foldl
                (fun sum f => sum + f.size) 0
        · rw [if_pos hstop]
          exact h1
        · rw [if_neg hstop]
          exact ih rest _ _ h1
    | Entry.file path size fetch :: rest =>
      simp only [walkFuel]
      by_cases hskip : shouldSkipFile path size = true
      · rw [if_pos hskip]
        exact ih rest files t h
      · rw [if_neg hskip]
        by_cases hlen : MAX_FILES_TO_ANALYZE ≤ files.length
        · rw [if_pos hlen]
          exact h
        · rw [if_neg hlen]
          by_cases hsize : MAX_TOTAL_CODE_SIZE < t + size
          · rw [if_pos hsize]
            exact ih rest files t h
          · rw [if_neg hsize]
            cases fetch with
            | none => exact ih rest files t h
            | some content =>
              refine ih rest _ _ ?_
              intro f hf
              rcases List.mem_append.mp hf with hf1 | hf2
              · exact h f hf1
              · have : f = mkCodeFile path content size := by simpa using hf2
                subst this
                exact shouldSkipFile_false_no_seg (Bool.not_eq_true _ ▸ hskip :
                  shouldSkipFile path size = false)

/-- Every content fetch the walk issues is for a file entry of the tree
that passed the admission filter. -/
theorem walkFuel_trace_sound :
    ∀ (fuel : Nat) (l : List Entry) (files : List CodeFile) (t : Nat) (q : String),
      q ∈ (walkFuel fuel l files t).2 →
      ∃ s, (q, s) ∈ forestFiles l ∧ shouldSkipFile q s = false := by
  intro fuel
  induction fuel with
  | zero => intro l files t q h; simp [walkFuel] at h
  | succ fuel ih =>
    intro l files t q h
    match l with
    | [] => simp [walkFuel] at h
    | Entry.dir name listOk sub :: rest =>
      simp only [walkFuel] at h
      have hsub : q ∈ (if listOk then walkFuel fuel sub [] 0 else ([], [])).2 →
          ∃ s, (q, s) ∈ forestFiles (Entry.dir name listOk sub :: rest) ∧
            shouldSkipFile q s = false := by
        intro hq
        cases listOk with
        | false => simp at hq
        | true =>
          simp only [if_true] at hq
          obtain ⟨s, hmem, hs⟩ := ih sub [] 0 q hq
          exact ⟨s, by simp only [forestFiles]; exact List.mem_append_left _ hmem, hs⟩
      have hrest : ∀ files t, q ∈ (walkFuel fuel rest files t).2 →
          ∃ s, (q, s) ∈ forestFiles (Entry.dir name listOk sub :: rest) ∧
            shouldSkipFile q s = false := by
        intro files t hq
        obtain ⟨s, hmem, hs⟩ := ih rest files t q hq
        exact ⟨s, by simp only [forestFiles]; exact List.mem_append_right _ hmem, hs⟩
      by_cases hskip : SKIP_DIRECTORIES.contains (lowerS name) = true
      · rw [if_pos hskip] at h
        exact hrest files t h
      · rw [if_neg hskip] at h
        by_cases hstop : MAX_FILES_TO_ANALYZE ≤
              (files ++ (if listOk then walkFuel fuel sub [] 0 else ([], [])).1).length ∨
            MAX_TOTAL_CODE_SIZE ≤
              (files ++ (if listOk then walkFuel fuel sub [] 0 else ([], [])).1).foldl
                (fun sum f => sum + f.size) 0
        · rw [if_pos hstop] at h
          exact hsub h
        · rw [if_neg hstop] at h
          rcases List.mem_append.mp h with h1 | h2
          · exact hsub h1
          · exact hrest _ _ h2
    | Entry.file path size fetch :: rest =>
      simp only [walkFuel] at h
      have hrest : ∀ files t, q ∈ (walkFuel fuel rest files t).2 →
          ∃ s, (q, s) ∈ forestFiles (Entry.file path size fetch :: rest) ∧
            shouldSkipFile q s = false := by
        intro files t hq
        obtain ⟨s, hmem, hs⟩ := ih rest files t q hq
        exact ⟨s, by simp only [forestFiles]; exact List.mem_cons_of_mem _ hmem, hs⟩
      by_cases hskip : shouldSkipFile path size = true
      · rw [if_pos hskip] at h
        exact hrest files t h
      · rw [if_neg hskip] at h
        by_cases hlen : MAX_FILES_TO_ANALYZE ≤ files.length
        · rw [if_pos hlen] at h
          simp at h
        · rw [if_neg hlen] at h
          by_cases hsize : MAX_TOTAL_CODE_SIZE < t + size
          · rw [if_pos hsize] at h
            exact hrest files t h
          · rw [if_neg hsize] at h
            have hfalse : shouldSkipFile path size = false := Bool.not_eq_true _ ▸ hskip
            cases fetch with
            | none =>
              rcases List.mem_cons.mp h with h1 | h2
              · subst h1
                exact ⟨size, by simp only [forestFiles]; exact List.mem_cons_self _ _, hfalse⟩
              · exact hrest _ _ h2
            | some content =>
              rcases List.mem_cons.mp h with h1 | h2
              · subst h1
                exact ⟨size, by simp only [forestFiles]; exact List.mem_cons_self _ _, hfalse⟩
              · exact hrest _ _ h2

/-- Membership in the final truncated, sorted list implies membership in
the walk's output. -/
theorem mem_codeFiles_mem_walk {l : List Entry} {f : CodeFile}
    (h : f ∈ (fetchRepoDataFiles l).codeFiles) : f ∈ fetchAllFilesRecursive l := by
  simp only [fetchRepoDataFiles] at h
  exact (List.mem_insertionSort priorityLe).mp (List.take_subset _ _ h)

/-- C4: for every path with a path segment matching (case-insensitively)
an entry of the directory skip-list — such as a path containing
`/node_modules/` — no CollectedFile with that path ever appears in the
result of the collection, regardless of its extension or size. -/
theorem C4_skip_listed_path_never_in_result (l : List Entry) (p : String)
    (h : hasSkipSegment p = true) :
    p ∉ (fetchRepoDataFiles l).codeFiles.map CodeFile.path := by
  intro hmem
  obtain ⟨f, hf, hpath⟩ := List.mem_map.mp hmem
  have h1 : f ∈ fetchAllFilesRecursive l := mem_codeFiles_mem_walk hf
  rw [fetchAllFilesRecursive, walkListing_eq_walkFuel] at h1
  have h2 : hasSkipSegment f.path = false :=
    walkFuel_no_skip_seg (sizeOf l) l [] 0 (by intro g hg; simp at hg) f h1
  rw [hpath, h] at h2
  exact Bool.noConfusion h2

/-- Witness for C4 at a concrete input: `node_modules/a.ts` carries the
skip-listed segment `node_modules` and never appears in the result of
walking `skipSegTree`, which lists it. -/
theorem C4_witness :
    hasSkipSegment "node_modules/a.ts" = true ∧
      "node_modules/a.ts" ∉ (fetchRepoDataFiles skipSegTree).codeFiles.map CodeFile.path :=
  ⟨by decide,
   C4_skip_listed_path_never_in_result skipSegTree "node_modules/a.ts" (by decide)⟩

/-- C6: the admission filter rejects, before any content fetch is issued,
every candidate whose declared size strictly exceeds 1 MiB: any size
above `MAX_FILE_SIZE` is filtered out, every issued fetch is for a tree
entry whose declared size is at most `MAX_FILE_SIZE`, and in the concrete
listing holding a file of 1 MiB + 1 byte the trace of issued fetches
skips it entirely. -/
theorem C6_oversize_rejected_before_fetch :
    (∀ (p : String) (s : Nat), MAX_FILE_SIZE < s → shouldSkipFile p s = true)
    ∧ (∀ (l : List Entry) (q : String), q ∈ fetchTrace l →
        ∃ s, (q, s) ∈ forestFiles l ∧ s ≤ MAX_FILE_SIZE)
    ∧ fetchTrace oneOverTree = ["ok.ts"] := by
  refine ⟨fun p s h => shouldSkipFile_of_size_gt h, ?_, ?_⟩
  · intro l q hq
    rw [fetchTrace_eq_fuel] at hq
    obtain ⟨s, hmem, hs⟩ := walkFuel_trace_sound (sizeOf l) l [] 0 q hq
    exact ⟨s, hmem, shouldSkipFile_false_size_le hs⟩
  · rw [fetchTrace_eq_fuel]
    decide

/-- Witness for C6 at concrete inputs: a file of exactly 1 MiB + 1 byte is
rejected by the filter, and the one fetch issued while walking
`oneOverTree` is for its 10-byte file. -/
theorem C6_witness :
    shouldSkipFile "big.ts" 1048577 = true ∧
      (∃ s, ("ok.ts", s) ∈ forestFiles oneOverTree ∧ s ≤ MAX_FILE_SIZE) :=
  ⟨C6_oversize_rejected_before_fetch.1 "big.ts" 1048577 (by decide),
   C6_oversize_rejected_before_fetch.2.1 oneOverTree "ok.ts"
     (by rw [fetchTrace_eq_fuel]; decide)⟩

/-- C5: classification assigns every path exactly one priority tier, the
role flags of a collected file are each a function of the path alone
(computed independently of the tier and of each other), and scenario A —
`src/app.ts` (2 KB), `README.md` (1 KB), `dist/bundle.min.js` (500 KB) —
collects exactly the two files, `src/app.ts` high priority and
`README.md` medium priority with `isDocumentation = true`. -/
theorem C5_classification_and_scenario_a :
    (∀ p : String,
        (getFilePriority p = Priority.high ∧ getFilePriority p ≠ Priority.medium ∧
          getFilePriority p ≠ Priority.low) ∨
        (getFilePriority p ≠ Priority.high ∧ getFilePriority p = Priority.medium ∧
          getFilePriority p ≠ Priority.low) ∨
        (getFilePriority p ≠ Priority.high ∧ getFilePriority p ≠ Priority.medium ∧
          getFilePriority p = Priority.low))
    ∧ (∀ (p c : String) (n : Nat),
        (mkCodeFile p c n).isTest = isTestFile p ∧
        (mkCodeFile p c n).isConfig = isConfigFile p ∧
        (mkCodeFile p c n).isDocumentation = isDocumentationFile p ∧
        (mkCodeFile p c n).priority = getFilePriority p)
    ∧ (fetchRepoDataFiles scenarioATree).codeFiles =
        [{ path := "src/app.ts", content := "app code", size := 2048,
           language := some "TypeScript", isTest := false, isConfig := false,
           isDocumentation := false, priority := Priority.high },
         { path := "README.md", content := "readme text", size := 1024,
           language := some "Markdown", isTest := false, isConfig := false,
           isDocumentation := true, priority := Priority.medium }] := by
  refine ⟨?_, fun p c n => ⟨rfl, rfl, rfl, rfl⟩, ?_⟩
  · intro p
    cases h : getFilePriority p with
    | high => exact Or.inl ⟨rfl, by decide, by decide⟩
    | medium => exact Or.inr (Or.inl ⟨by decide, rfl, by decide⟩)
    | low => exact Or.inr (Or.inr ⟨by decide, by decide, rfl⟩)
  · rw [fetchRepoDataFiles_eq_fuel]
    decide

/-! The stable sort by the three-valued priority key. -/

theorem orderedInsert_of_forall_le {a : CodeFile} {ys : List CodeFile}
    (h : ∀ b ∈ ys, priorityLe a b) :
    List.orderedInsert priorityLe a ys = a :: ys := by
  cases ys with
  | nil => rfl
  | cons b t => rw [List.orderedInsert, if_pos (h b (List.mem_cons_self b t))]

theorem orderedInsert_append_of_forall_not {a : CodeFile} :
    ∀ (xs ys : List CodeFile), (∀ b ∈ xs, ¬ priorityLe a b) →
      List.orderedInsert priorityLe a (xs ++ ys) =
        xs ++ List.orderedInsert priorityLe a ys := by
  intro xs
  induction xs with
  | nil => intro ys h; simp
  | cons b t ih =>
    intro ys h
    rw [List.cons_append, List.orderedInsert,
      if_neg (h b (List.mem_cons_self b t)),
      ih ys (fun c hc => h c (List.mem_cons_of_mem b hc)), List.cons_append]

/-- A stable sort by the comparator of `fetchRepoData` is exactly the
concatenation of the three priority classes in discovery order. -/
theorem insertionSort_priority_filters :
    ∀ L : List CodeFile,
      L.insertionSort priorityLe =
        L.filter (fun f => f.priority == Priority.high)
        ++ L.filter (fun f => f.priority == Priority.medium)
        ++ L.filter (fun f => f.priority == Priority.low) := by
  intro L
  induction L with
  | nil => simp
  | cons a t ih =>
    rw [List.insertionSort, ih]
    cases ha : a.priority with
    | high =>
      rw [List.append_assoc,
        orderedInsert_of_forall_le (by intro b hb; simp [priorityLe, ha, priorityOrder])]
      simp [List.filter_cons, ha]
    | medium =>
      have hxs : ∀ b ∈ t.filter (fun f => f.priority == Priority.high),
          ¬ priorityLe a b := by
        intro b hb
        have hbp : b.priority = Priority.high := by
          simpa using (List.mem_filter.mp hb).2
        simp [priorityLe, ha, hbp, priorityOrder]
      have hys : ∀ b ∈ t.filter (fun f => f.priority == Priority.medium)
            ++ t.filter (fun f => f.priority == Priority.low),
          priorityLe a b := by
        intro b hb
        rcases List.mem_append.mp hb with hb1 | hb2
        · have hbp : b.priority = Priority.medium := by
            simpa using (List.mem_filter.mp hb1).2
          simp [priorityLe, ha, hbp, priorityOrder]
        · have hbp : b.priority = Priority.low := by
            simpa using (List.mem_filter.mp hb2).2
          simp [priorityLe, ha, hbp, priorityOrder]
      rw [List.append_assoc, orderedInsert_append_of_forall_not _ _ hxs,
        orderedInsert_of_forall_le hys]
      simp [List.filter_cons, ha]
    | low =>
      have hxs : ∀ b ∈ t.filter (fun f => f.priority == Priority.high)
            ++ t.filter (fun f => f.priority == Priority.medium),
          ¬ priorityLe a b := by
        intro b hb
        rcases List.mem_append.mp hb with hb1 | hb2
        · have hbp : b.priority = Priority.high := by
            simpa using (List.mem_filter.mp hb1).2
          simp [priorityLe, ha, hbp, priorityOrder]
        · have hbp : b.priority = Priority.medium := by
            simpa using (List.mem_filter.mp hb2).2
          simp [priorityLe, ha, hbp, priorityOrder]
      have hys : ∀ b ∈ t.filter (fun f => f.priority == Priority.low),
          priorityLe a b := by
        intro b hb
        have hbp : b.priority = Priority.low := by
          simpa using (List.mem_filter.mp hb).2
        simp [priorityLe, ha, hbp, priorityOrder]
      rw [orderedInsert_append_of_forall_not _ _ hxs,
        orderedInsert_of_forall_le hys]
      simp [List.filter_cons, ha]

/-- C9: the final file list is the stable priority sort of the walk's
output truncated to the count ceiling: the sorted list is exactly the
high files in discovery order, then the medium files in discovery order,
then the low files in discovery order, and the returned `codeFiles` is
its 500-element prefix. -/
theorem C9_priority_sort_stable (l : List Entry) :
    (fetchAllFilesRecursive l).insertionSort priorityLe =
        (fetchAllFilesRecursive l).filter (fun f => f.priority == Priority.high)
        ++ (fetchAllFilesRecursive l).filter (fun f => f.priority == Priority.medium)
        ++ (fetchAllFilesRecursive l).filter (fun f => f.priority == Priority.low)
    ∧ (fetchRepoDataFiles l).codeFiles =
        ((fetchAllFilesRecursive l).insertionSort priorityLe).take MAX_FILES_TO_ANALYZE :=
  ⟨insertionSort_priority_filters _, rfl⟩

/-- A file entry whose content fetch fails contributes nothing: at any
point of a listing where the count ceiling has not yet broken the loop,
the files returned are exactly those returned on the listing without that
entry. -/
theorem walkListing_cons_failed_fetch
    (path : String) (size : Nat) (post : List Entry) (files : List CodeFile)
    (totalSize : Nat) (hlen : files.length < MAX_FILES_TO_ANALYZE) :
    (walkListing (Entry.file path size none :: post) files totalSize).1 =
      (walkListing post files totalSize).1 := by
  simp only [walkListing]
  by_cases hskip : shouldSkipFile path size = true
  · rw [if_pos hskip]
  · rw [if_neg hskip, if_neg (Nat.not_le.mpr hlen)]
    by_cases hsize : MAX_TOTAL_CODE_SIZE < totalSize + size
    · rw [if_pos hsize]
    · rw [if_neg hsize]

/-- C8: a fetch or decode failure for an individual file never aborts the
walk — wherever the walk would issue a fetch (the count ceiling has not
broken the loop), a failing file entry leaves the returned files exactly
as if the entry were absent, in particular at the start of any listing —
and the only error that escapes `fetchRepoData` is a failure of the
top-level repository-metadata request. -/
theorem C8_fetch_failure_never_aborts :
    (∀ (path : String) (size : Nat) (post : List Entry) (files : List CodeFile)
        (totalSize : Nat), files.length < MAX_FILES_TO_ANALYZE →
        (walkListing (Entry.file path size none :: post) files totalSize).1 =
          (walkListing post files totalSize).1)
    ∧ (∀ (path : String) (size : Nat) (post : List Entry),
        fetchAllFilesRecursive (Entry.file path size none :: post) =
          fetchAllFilesRecursive post)
    ∧ (∀ inp : RepoFetchInputs,
        (∃ msg, fetchRepoData inp = Except.error msg) ↔ inp.metaOk = false) := by
  refine ⟨walkListing_cons_failed_fetch, ?_, ?_⟩
  · intro path size post
    exact walkListing_cons_failed_fetch path size post [] 0 (by decide)
  · intro inp
    constructor
    · rintro ⟨m, hm⟩
      cases hmeta : inp.metaOk with
      | false => rfl
      | true => simp [fetchRepoData, hmeta] at hm
    · intro h
      simp only [fetchRepoData, h, Bool.not_false, if_true]
      split
      · exact ⟨_, rfl⟩
      · split
        · exact ⟨_, rfl⟩
        · exact ⟨_, rfl⟩

/-- Witness for C8 at a concrete input: dropping the failing first entry
of `failFetchTree` leaves the walk's result unchanged. -/
theorem C8_witness :
    (walkListing (Entry.file "gone.ts" 10 none :: [Entry.file "ok.ts" 20 (some "y")])
        [] 0).1 =
      (walkListing [Entry.file "ok.ts" 20 (some "y")] [] 0).1 :=
  C8_fetch_failure_never_aborts.1 "gone.ts" 10 [Entry.file "ok.ts" 20 (some "y")] [] 0
    (by decide)

/-- C7: `parseGithubUrl` returns null when the string does not parse as a
URL, when the host is not exactly `github.com`, or when the path has
fewer than two nonempty segments; it returns an owner/repo pair whenever
the host matches and two segments exist; and the malformed URL
`https://github.com/onlyowner` parses to null.  The function is pure, so
no network request is involved in any of these cases. -/
theorem C7_parseGithubUrl_host_and_segments :
    (∀ s : String, urlParse s = none → parseGithubUrl s = none)
    ∧ (∀ (s : String) (u : UrlObj), urlParse s = some u →
        u.hostname ≠ "github.com" → parseGithubUrl s = none)
    ∧ (∀ (s : String) (u : UrlObj), urlParse s = some u →
        ((splitSlash u.pathname).filter (fun p => p ≠ "")).length < 2 →
        parseGithubUrl s = none)
    ∧ (∀ (s : String) (u : UrlObj), urlParse s = some u →
        u.hostname = "github.com" →
        2 ≤ ((splitSlash u.pathname).filter (fun p => p ≠ "")).length →
        ∃ ow rp, parseGithubUrl s = some (ow, rp))
    ∧ parseGithubUrl "https://github.com/onlyowner" = none := by
  refine ⟨?_, ?_, ?_, ?_, by decide⟩
  · intro s h
    simp [parseGithubUrl, h]
  · intro s u hu hne
    simp only [parseGithubUrl, hu]
    rw [if_pos hne]
  · intro s u hu hlen
    simp only [parseGithubUrl, hu]
    by_cases hh : u.hostname ≠ "github.com"
    · rw [if_pos hh]
    · rw [if_neg hh]
      cases hp : (splitSlash u.pathname).filter (fun p => p ≠ "") with
      | nil => rfl
      | cons a t =>
        cases t with
        | nil => rfl
        | cons b t2 =>
          rw [hp] at hlen
          simp at hlen
          omega
  · intro s u hu hgit hlen
    simp only [parseGithubUrl, hu]
    rw [if_neg (by simp [hgit])]
    cases hp : (splitSlash u.pathname).filter (fun p => p ≠ "") with
    | nil => rw [hp] at hlen; simp at hlen
    | cons a t =>
      cases t with
      | nil => rw [hp] at hlen; simp at hlen
      | cons b t2 => exact ⟨a, b, rfl⟩

/-- Witness for C7 at a concrete input: a well-formed URL on a different
host parses to null. -/
theorem C7_witness :
    parseGithubUrl "https://gitlab.com/owner/repo" = none :=
  C7_parseGithubUrl_host_and_segments.2.1 "https://gitlab.com/owner/repo"
    { hostname := "gitlab.com", pathname := "/owner/repo" } (by decide) (by decide)

/-- C10: every path segment after the first two is ignored: whenever the
host matches and the filtered segment list starts with an owner and a
repository, the result is exactly that pair, so a URL carrying extra
segments such as `/tree/main` parses identically to the bare
owner/repository URL. -/
theorem C10_extra_path_segments_ignored :
    (∀ (s : String) (u : UrlObj) (o r : String) (tail : List String),
        urlParse s = some u → u.hostname = "github.com" →
        (splitSlash u.pathname).filter (fun p => p ≠ "") = o :: r :: tail →
        parseGithubUrl s = some (o, r))
    ∧ parseGithubUrl "https://github.com/owner/repo/tree/main" = some ("owner", "repo")
    ∧ parseGithubUrl "https://github.com/owner/repo/tree/main" =
        parseGithubUrl "https://github.com/owner/repo" := by
  refine ⟨?_, by decide, by decide⟩
  intro s u o r tail hu hgit hp
  simp only [parseGithubUrl, hu]
  rw [if_neg (by simp [hgit]), hp]

/-- Witness for C10 at a concrete input: the `/tree/main` suffix is
dropped. -/
theorem C10_witness :
    parseGithubUrl "https://github.com/owner/repo/tree/main" = some ("owner", "repo") :=
  C10_extra_path_segments_ignored.1 "https://github.com/owner/repo/tree/main"
    { hostname := "github.com", pathname := "/owner/repo/tree/main" }
    "owner" "repo" ["tree", "main"] (by decide) (by decide) (by decide)

/-- C3 counterexample: in `dupPathTree` the path `a.ts` is admitted twice
and both CollectedFile records survive into the final list — the claim
that at most one survives is false. -/
theorem C3_counterexample_duplicate_survives_twice :
    ((fetchRepoDataFiles dupPathTree).codeFiles.map CodeFile.path).count "a.ts" = 2 := by
  rw [fetchRepoDataFiles_eq_fuel]
  decide

/-- C3 amended: no deduplication by path is performed anywhere in the
pipeline — the sorted list is a permutation of everything the walk
admitted, the final list is its 500-element prefix, and in the duplicate
scenario both records with path `a.ts` appear in the final list. -/
theorem C3_no_dedup_all_admitted_survive (l : List Entry) :
    ((fetchAllFilesRecursive l).insertionSort priorityLe).Perm (fetchAllFilesRecursive l)
    ∧ (fetchRepoDataFiles l).codeFiles =
        ((fetchAllFilesRecursive l).insertionSort priorityLe).take MAX_FILES_TO_ANALYZE
    ∧ (fetchRepoDataFiles dupPathTree).codeFiles.map CodeFile.path = ["a.ts", "a.ts"] :=
  ⟨List.perm_insertionSort priorityLe (fetchAllFilesRecursive l), rfl,
   by rw [fetchRepoDataFiles_eq_fuel]; decide⟩

/-- C1 (evaluation at the failing input): on two sibling directories of
nine 1 MiB files each, every file is fetched — each recursive invocation
tracks its own running total, so sibling subtrees get fresh aggregate
budgets — and the returned set totals 18 MiB, exceeding the 10 MiB
ceiling the claim (and the constant's own comment) promises. -/
theorem C1_aggregate_ceiling_exceeded :
    MAX_TOTAL_CODE_SIZE < (fetchRepoDataFiles twoNineMiBDirs).totalCodeSize ∧
      (fetchRepoDataFiles twoNineMiBDirs).totalCodeSize = 18874368 ∧
      (fetchRepoDataFiles twoNineMiBDirs).filesAnalyzed = 18 := by
  rw [fetchRepoDataFiles_eq_fuel]
  decide

/-- The aggregates of `fetchRepoDataFiles`, written against the walk's
output length. -/
theorem filesAnalyzed_eq (l : List Entry) :
    (fetchRepoDataFiles l).filesAnalyzed =
      min MAX_FILES_TO_ANALYZE (fetchAllFilesRecursive l).length := by
  simp only [fetchRepoDataFiles]
  rw [List.length_take, List.length_insertionSort]

theorem filesSkipped_eq (l : List Entry) :
    (fetchRepoDataFiles l).filesSkipped =
      (fetchAllFilesRecursive l).length - (fetchRepoDataFiles l).filesAnalyzed := rfl

/-- C2 amended: the reported `filesSkipped` is the number of files the
walk fetched minus the number kept after the final truncation (not the
number discovered minus the number analyzed), and `filesAnalyzed` is the
walk's output length capped at 500. -/
theorem C2_filesSkipped_is_fetched_minus_kept (l : List Entry) :
    (fetchRepoDataFiles l).filesSkipped =
        (fetchAllFilesRecursive l).length - (fetchRepoDataFiles l).filesAnalyzed
    ∧ (fetchRepoDataFiles l).filesAnalyzed =
        min MAX_FILES_TO_ANALYZE (fetchAllFilesRecursive l).length :=
  ⟨filesSkipped_eq l, filesAnalyzed_eq l⟩

/-- Any list is at most as large as its `sizeOf`. -/
theorem length_le_sizeOf : ∀ l : List Entry, l.length ≤ sizeOf l := by
  intro l
  induction l with
  | nil => simp
  | cons e rest ih => simp; omega

/-- On a flat listing of eligible 1 KB files the walk admits files until
the count ceiling breaks the loop: the returned length is the incoming
length plus the listing length, capped at the ceiling.  (The aggregate
budget never intervenes: 500 files of 1 KB total well under 10 MiB.) -/
theorem walkFuel_flat_1k :
    ∀ (fuel : Nat) (l : List Entry) (files : List CodeFile) (t : Nat),
      l.all eligible1k = true →
      l.length ≤ fuel →
      files.length ≤ MAX_FILES_TO_ANALYZE →
      t + 1024 * (MAX_FILES_TO_ANALYZE - files.length) ≤ MAX_TOTAL_CODE_SIZE →
      (walkFuel fuel l files t).1.length =
        min MAX_FILES_TO_ANALYZE (files.length + l.length) := by
  intro fuel
  induction fuel with
  | zero =>
    intro l files t hall hfuel hlen hbudget
    have : l = [] := List.eq_nil_of_length_eq_zero (Nat.le_zero.mp hfuel)
    subst this
    simp [walkFuel, Nat.min_eq_right hlen]
  | succ fuel ih =>
    intro l files t hall hfuel hlen hbudget
    match l with
    | [] => simp [walkFuel, Nat.min_eq_right hlen]
    | e :: rest =>
      have he : eligible1k e = true := by
        have := List.all_eq_true.mp hall e (List.mem_cons_self e rest)
        exact this
      have hrest : rest.all eligible1k = true := by
        apply List.all_eq_true.mpr
        intro x hx
        exact List.all_eq_true.mp hall x (List.mem_cons_of_mem e hx)
      match e, he with
      | Entry.file p sz (some c), he =>
        have hsz : sz = 1024 := by
          simp only [eligible1k, Bool.and_eq_true, beq_iff_eq] at he
          exact he.1
        have hskip : shouldSkipFile p sz = false := by
          simp only [eligible1k, Bool.and_eq_true, Bool.not_eq_true'] at he
          exact he.2
        subst hsz
        simp only [walkFuel, hskip, Bool.false_eq_true, if_false]
        by_cases hfull : MAX_FILES_TO_ANALYZE ≤ files.length
        · rw [if_pos hfull]
          have : files.length = MAX_FILES_TO_ANALYZE := Nat.le_antisymm hlen hfull
          simp only [List.length_cons, this]
          omega
        · rw [if_neg hfull]
          have hnof : ¬ MAX_TOTAL_CODE_SIZE < t + 1024 := by
            have h1 : files.length < MAX_FILES_TO_ANALYZE := Nat.lt_of_not_le hfull
            omega
          rw [if_neg hnof]
          have h1 : files.length < MAX_FILES_TO_ANALYZE := Nat.lt_of_not_le hfull
          have hlen2 : (files ++ [mkCodeFile p c 1024]).length = files.length + 1 := by
            simp
          have hstep := ih rest (files ++ [mkCodeFile p c 1024]) (t + 1024) hrest
            (by simp only [List.length_cons] at hfuel; omega)
            (by rw [hlen2]; omega)
            (by rw [hlen2]; omega)
          rw [hstep, hlen2]
          simp only [List.length_cons]
          omega

set_option maxRecDepth 100000 in
/-- The walk on the flat 600-file repository returns exactly 500 files. -/
theorem fetchAll_flat600_len : (fetchAllFilesRecursive flatRepo600).length = 500 := by
  rw [fetchAllFilesRecursive, walkListing_eq_walkFuel]
  have h := walkFuel_flat_1k (sizeOf flatRepo600) flatRepo600 [] 0 (by decide)
    (length_le_sizeOf flatRepo600) (by decide) (by decide)
  rw [h]
  have h600 : flatRepo600.length = 600 := by decide
  rw [h600]
  decide

/-- C2 counterexample: a flat repository of 600 eligible 1 KB files yields
500 CollectedFile but `filesSkipped = 0`, not 100 — the walk stops
admitting at the 500th file, so only 500 are ever fetched and the
fetched-minus-kept difference is zero. -/
theorem C2_counterexample_flat600_skipped_zero :
    (fetchRepoDataFiles flatRepo600).filesAnalyzed = 500 ∧
      (fetchRepoDataFiles flatRepo600).filesSkipped = 0 ∧
      (fetchRepoDataFiles flatRepo600).filesSkipped ≠ 100 := by
  have h1 : (fetchRepoDataFiles flatRepo600).filesAnalyzed = 500 := by
    rw [filesAnalyzed_eq, fetchAll_flat600_len]
    decide
  have h2 : (fetchRepoDataFiles flatRepo600).filesSkipped = 0 := by
    rw [filesSkipped_eq, fetchAll_flat600_len, h1]
  exact ⟨h1, h2, by rw [h2]; decide⟩

end RepoAnalyser
